import Mathlib

/-!
Shallow embedding of `src/liboverviewer/src/world.rs` (crate `liboverviewer`
of the overviewer-ng repository), together with models of the parts of the
repository that the file depends on but that are not among the sources
(the coordinate module `coords.rs` and the error module `error.rs`), taken
from the specification.  File-system access and the external `nbtrs` codec
are represented by an explicit environment record that every I/O-performing
operation takes as a parameter.
-/

namespace Overviewer

/-- An opaque structured tag document produced by the external codec
(`nbtrs::Tag`).  Its internal structure is irrelevant to the core, so it is
modelled as an opaque wrapper around a natural number seed. -/
inductive Tag where
  | mk (seed : Nat) : Tag
deriving DecidableEq, Repr

/-- Modelled from the spec: `error.rs` is not among the sources; §7 of the
spec gives the error taxonomy `NotFound`, `IoError`, `DecodeError`,
`IndexOutOfRange`. -/
inductive OverviewerError where
  | notFound
  | ioError
  | decodeError
  | indexOutOfRange
deriving DecidableEq, Repr

/-- Modelled from the spec: `coords.rs` is not among the sources; §4.1
defines `split(chunk_coord) -> (local_coord, region_coord)` with
`local = chunk mod 32` (non-negative) and `region = chunk div 32` using
floored (not truncated) division.  `Int.fmod` / `Int.fdiv` are Lean's
flooring modulus and division. -/
def split (c : Int) : Int × Int :=
  (Int.fmod c 32, Int.fdiv c 32)

/-- Modelled from the spec: the coordinate value type of `coords.rs`
(`Coord<Chunk, World>` is used with fields `x` and `z` only). -/
structure Coord where
  x : Int
  z : Int
deriving DecidableEq, Repr

/-- Modelled from the spec: `Coord::split::<Region>()` applies the scalar
`split` of §4.1 to each axis, returning the local and the region coordinate. -/
def Coord.split (xz : Coord) : Coord × Coord :=
  (⟨(Overviewer.split xz.x).1, (Overviewer.split xz.z).1⟩,
   ⟨(Overviewer.split xz.x).2, (Overviewer.split xz.z).2⟩)

/-- Rust's `as u8` cast on a signed integer: truncation to the low 8 bits,
read as an unsigned value. -/
def asU8 (i : Int) : Nat :=
  (Int.emod i 256).toNat

/-- The decoded view of one region file, as provided by the external codec
(`nbtrs::RegionFile`): `load_chunk` either decodes a slot's payload or
reports absence/failure (`Err` collapsed to `none`), and
`get_chunk_timestamp` reports a slot's timestamp or absence. -/
structure RegionFileData where
  loadChunk : Nat → Nat → Option Tag
  timestamp : Nat → Nat → Option Nat

/-- Outcome of `File::open` followed by `RegionFile::new` on a path:
the file may be absent (open fails), malformed (`RegionFile::new` fails),
or parse into a `RegionFileData`. -/
inductive FileOutcome where
  | absent
  | invalid
  | valid (rf : RegionFileData)

/-- The file-system/codec environment.  `pathExists` models `Path::exists`,
`readDir` models `read_dir` (entry file names, or a directory-read error),
`isDir` models `Path::is_dir`, `levelDat` models the
open + gunzip + `Tag::parse` chain on a metadata file path, and
`regionFile` models `File::open` + `RegionFile::new` on a region-file path. -/
structure Env where
  pathExists : String → Bool
  readDir : String → Except Unit (List String)
  isDir : String → Bool
  levelDat : String → Except OverviewerError Tag
  regionFile : String → FileOutcome

/-- Rust `i64::from_str_radix(s, 10)` digit accumulation: all characters
must be decimal digits, folded most-significant first. -/
def decDigit (ch : Char) : Option Nat :=
  if '0' ≤ ch ∧ ch ≤ '9' then some (ch.toNat - '0'.toNat) else none

/-- Fold a character list into a number, failing on any non-digit. -/
def digitsToNat (cs : List Char) : Option Nat :=
  cs.foldl
    (fun acc ch =>
      match acc, decDigit ch with
      | some n, some d => some (n * 10 + d)
      | _, _ => none)
    (some 0)

/-- Rust `i64::from_str_radix(s, 10)`: an optional single leading sign,
then one or more decimal digits, with the value required to fit in `i64`;
anything else is an error (`none`). -/
def from_str_radix_10 (s : String) : Option Int :=
  match s.toList with
  | [] => none
  | '+' :: rest =>
    match rest, digitsToNat rest with
    | _ :: _, some n => if (n : Int) ≤ 2 ^ 63 - 1 then some (n : Int) else none
    | _, _ => none
  | '-' :: rest =>
    match rest, digitsToNat rest with
    | _ :: _, some n => if (n : Int) ≤ 2 ^ 63 then some (-(n : Int)) else none
    | _, _ => none
  | cs =>
    match digitsToNat cs with
    | some n => if (n : Int) ≤ 2 ^ 63 - 1 then some (n : Int) else none
    | none => none

/-- The filename test of `Regionset::new`: split the file name on dots into
exactly four components `[c0, c1, c2, c3]` with `c0 = "r"`, `c3 = "mca"`,
and `c1`, `c2` parsing as signed base-10 `i64`; on success the parsed
region coordinates are returned. -/
def parseRegionComponents : List String → Option (Int × Int)
  | [c0, c1, c2, c3] =>
    if c0 = "r" ∧ c3 = "mca" then
      match from_str_radix_10 c1, from_str_radix_10 c2 with
      | some x, some z => some (x, z)
      | _, _ => none
    else none
  | _ => none

/-- The filename test applied to the dot-split of the file name. -/
def parseRegionName (fname : String) : Option (Int × Int) :=
  parseRegionComponents (fname.splitOn ".")

/-- `Regionset`: a dimension directory path and the existence index, the
list of region coordinates derived from filenames at construction time. -/
structure Regionset where
  region_dir : String
  regions : List (Int × Int)
deriving DecidableEq, Repr

/-- `Regionset::new`: fail with `NotFound` if the path does not exist,
with `IoError` if the directory cannot be read, and otherwise record the
coordinates of every directory entry whose filename matches the region
pattern, skipping everything else. -/
def Regionset.new (env : Env) (p : String) : Except OverviewerError Regionset :=
  if env.pathExists p then
    match env.readDir p with
    | .error _ => .error .ioError
    | .ok files => .ok ⟨p, files.filterMap parseRegionName⟩
  else .error .notFound

/-- The region file name constructed by `get_chunk`/`get_chunk_mtime`:
`format!("r.{}.{}.mca", r.x, r.z)`. -/
def regionFileName (x z : Int) : String :=
  "r." ++ toString x ++ "." ++ toString z ++ ".mca"

/-- A decoded chunk: opaque wrapper around the codec's tag tree. -/
structure Chunk where
  tag : Tag
deriving DecidableEq, Repr

/-- `Regionset::get_chunk`: split the coordinate, return `none` when the
region coordinate is not in the existence index; otherwise open and parse
the region file, load the slot, and convert every failure along the way
to `none`. -/
def Regionset.get_chunk (env : Env) (self : Regionset) (xz : Coord) : Option Chunk :=
  let cr := xz.split
  let c := cr.1
  let r := cr.2
  if (r.x, r.z) ∈ self.regions then
    match env.regionFile (self.region_dir ++ "/" ++ regionFileName r.x r.z) with
    | .valid rf =>
      match rf.loadChunk (asU8 c.x) (asU8 c.z) with
      | some tag => some ⟨tag⟩
      | none => none
    | _ => none
  else none

/-- `Regionset::get_chunk_mtime`: same region lookup as `get_chunk`, but
query only the slot timestamp table, converting every failure to `none`. -/
def Regionset.get_chunk_mtime (env : Env) (self : Regionset) (xz : Coord) : Option Nat :=
  let cr := xz.split
  let c := cr.1
  let r := cr.2
  if (r.x, r.z) ∈ self.regions then
    match env.regionFile (self.region_dir ++ "/" ++ regionFileName r.x r.z) with
    | .valid rf => rf.timestamp (asU8 c.x) (asU8 c.z)
    | _ => none
  else none

/-- Rust `Path::extension` on a file name: the portion after the final dot,
absent when there is no dot or when the name begins with a dot and has no
other dot. -/
def fileExtension (name : String) : Option String :=
  match name.splitOn "." with
  | [] => none
  | [_] => none
  | ["", _] => none
  | comps => comps.getLast?

/-- The dimension test of `World::new`:
`f.path().extension().map_or(false, |ex| ex == "mca")`. -/
def extensionIsMca (name : String) : Bool :=
  fileExtension name == some "mca"

/-- `World`: root directory, discovered Regionsets in directory-scan order,
and the parsed metadata tag tree. -/
structure World where
  world_dir : String
  regionsets : List Regionset
  level_dat : Tag
deriving DecidableEq, Repr

/-- The directory-scan loop of `World::new`: for each entry of the world
directory, in order, if it is a directory whose listing contains at least
one filename with the `mca` extension, construct a `Regionset` for it
(propagating failure); otherwise skip it.  A failure to read a
subdirectory's listing propagates as `IoError`. -/
def scanRegionsets (env : Env) (p : String) : List String → Except OverviewerError (List Regionset)
  | [] => .ok []
  | name :: rest =>
    if env.isDir (p ++ "/" ++ name) then
      match env.readDir (p ++ "/" ++ name) with
      | .error _ => .error .ioError
      | .ok files =>
        if files.any extensionIsMca then
          match Regionset.new env (p ++ "/" ++ name) with
          | .error e => .error e
          | .ok rs =>
            match scanRegionsets env p rest with
            | .error e => .error e
            | .ok l => .ok (rs :: l)
        else scanRegionsets env p rest
    else scanRegionsets env p rest

/-- `World::new`: fail with `NotFound` when the path does not exist, parse
`level.dat` (propagating its failure), then scan the directory entries for
dimension subdirectories. -/
def World.new (env : Env) (p : String) : Except OverviewerError World :=
  if env.pathExists p then
    match env.levelDat (p ++ "/level.dat") with
    | .error e => .error e
    | .ok level_dat_nbt =>
      match env.readDir p with
      | .error _ => .error .ioError
      | .ok entries =>
        match scanRegionsets env p entries with
        | .error e => .error e
        | .ok regionsets => .ok ⟨p, regionsets, level_dat_nbt⟩
  else .error .notFound

/-- Outcome of calling a Rust function that may panic: either a normal
return value or a panic (as raised by the `unimplemented!` macro). -/
inductive RustOutcome (α : Type) where
  | panicked (msg : String)
  | returns (a : α)
deriving DecidableEq

/-- The `ChunkIter` iterator type of `world.rs`; it carries no state and
its `next` is unimplemented. -/
structure ChunkIter where
deriving DecidableEq, Repr

/-- `World::get_regionset` as written in `world.rs`: its body is
`unimplemented!()`, which panics unconditionally. -/
def World.get_regionset (_ : World) (_ : Nat) : RustOutcome Regionset :=
  .panicked "not implemented"

/-- `Regionset::get_chunks` as written in `world.rs`: its body is
`unimplemented!()`, which panics unconditionally. -/
def Regionset.get_chunks (_ : Regionset) : RustOutcome ChunkIter :=
  .panicked "not implemented"

/-- `ChunkIter::next` as written in `world.rs`: `unimplemented!()`, a
panic; note its `Item` type is `Chunk`, not an `(x, z, mtime)` tuple. -/
def ChunkIter.next (_ : ChunkIter) : RustOutcome (Option Chunk) :=
  .panicked "not implemented"

/-- The dimension test of the scan loop of `World::new`, as a predicate on
the subdirectory path: the entry is a directory and its listing (which
must be readable) contains at least one filename with the `mca`
extension. -/
def dimQualifies (env : Env) (path : String) : Bool :=
  env.isDir path &&
    match env.readDir path with
    | .ok files => files.any extensionIsMca
    | .error _ => false

/-! ## Concrete instances used to exercise the theorems -/

/-- A concrete tag value. -/
def tagW : Tag := .mk 0

/-- A region file with exactly one populated slot at local `(4, 8)`,
with matching payload and timestamp presence. -/
def rfGood : RegionFileData :=
  ⟨fun a b => if a = 4 ∧ b = 8 then some tagW else none,
   fun a b => if a = 4 ∧ b = 8 then some 1454034069 else none⟩

/-- A region file whose payloads are all undecodable while its timestamp
table reports every slot as populated. -/
def rfBad : RegionFileData :=
  ⟨fun _ _ => none, fun _ _ => some 5⟩

/-- A concrete Regionset whose existence index holds region `(0, 0)`. -/
def rs0 : Regionset := ⟨"d", [(0, 0)]⟩

/-- Environment in which every region-file open yields `rfGood`. -/
def envGood : Env :=
  ⟨fun _ => true, fun _ => .ok ["r.0.0.mca"], fun _ => true,
   fun _ => .ok tagW, fun _ => .valid rfGood⟩

/-- Environment in which every region-file open yields `rfBad`. -/
def envBad : Env :=
  ⟨fun _ => true, fun _ => .ok ["r.0.0.mca"], fun _ => true,
   fun _ => .ok tagW, fun _ => .valid rfBad⟩

/-- Environment in which every file open fails. -/
def envAbsent : Env :=
  ⟨fun _ => true, fun _ => .ok [], fun _ => false,
   fun _ => .error .decodeError, fun _ => .absent⟩

/-- Environment whose directory listing holds two region files and a
stray text file. -/
def envMixed : Env :=
  ⟨fun _ => true, fun _ => .ok ["r.0.0.mca", "r.-1.2.mca", "junk.txt"], fun _ => true,
   fun _ => .ok tagW, fun _ => .absent⟩

/-- The six region-file names of the world scenario of the spec. -/
def regionFiles6 : List String :=
  ["r.0.0.mca", "r.0.1.mca", "r.1.0.mca", "r.1.1.mca", "r.-1.0.mca", "r.0.-1.mca"]

/-- Environment describing a world directory `w` with one dimension
subdirectory `region` holding six region files, plus a stray file. -/
def envWorld : Env :=
  ⟨fun _ => true,
   fun q =>
     if q = "w" then .ok ["region", "file.txt"]
     else if q = "w" ++ "/" ++ "region" then .ok regionFiles6
     else .ok [],
   fun q => q == "w" ++ "/" ++ "region",
   fun _ => .ok tagW,
   fun _ => .absent⟩

/-- Environment in which no path exists. -/
def envNothing : Env :=
  ⟨fun _ => false, fun _ => .error (), fun _ => false,
   fun _ => .error .ioError, fun _ => .absent⟩

/-! ## Equational lemmas -/

/-- Unfolded form of `Regionset.get_chunk` in terms of the scalar `split`. -/
theorem Regionset.get_chunk_eq (env : Env) (rs : Regionset) (xz : Coord) :
    rs.get_chunk env xz =
      (if ((split xz.x).2, (split xz.z).2) ∈ rs.regions then
        match env.regionFile
            (rs.region_dir ++ "/" ++ regionFileName (split xz.x).2 (split xz.z).2) with
        | .valid rf =>
          match rf.loadChunk (asU8 (split xz.x).1) (asU8 (split xz.z).1) with
          | some tag => some ⟨tag⟩
          | none => none
        | _ => none
      else none) := rfl

/-- Unfolded form of `Regionset.get_chunk_mtime` in terms of the scalar `split`. -/
theorem Regionset.get_chunk_mtime_eq (env : Env) (rs : Regionset) (xz : Coord) :
    rs.get_chunk_mtime env xz =
      (if ((split xz.x).2, (split xz.z).2) ∈ rs.regions then
        match env.regionFile
            (rs.region_dir ++ "/" ++ regionFileName (split xz.x).2 (split xz.z).2) with
        | .valid rf => rf.timestamp (asU8 (split xz.x).1) (asU8 (split xz.z).1)
        | _ => none
      else none) := rfl

/-! ## Claim theorems -/

/-- C1: for every integer chunk coordinate `c`, `split c = (local, region)`
satisfies `region * 32 + local = c` with `0 ≤ local < 32`, the division
being floored; in particular `split (-1) = (31, -1)`. -/
theorem split_floored_division_correct :
    (∀ c : Int,
      (split c).2 * 32 + (split c).1 = c ∧ 0 ≤ (split c).1 ∧ (split c).1 < 32)
    ∧ split (-1) = (31, -1) := by
  constructor
  · intro c
    have h32 : (0 : Int) ≤ 32 := by norm_num
    simp only [split, Int.fmod_eq_emod _ h32, Int.fdiv_eq_ediv _ h32]
    refine ⟨?_, ?_, ?_⟩ <;> omega
  · decide

/-- C10: the local coordinate produced by `split` always lies in `[0, 32)`,
so the `as u8` narrowing used by `get_chunk` / `get_chunk_mtime` is
lossless and the slot handed to the codec is a valid slot of the 32×32
grid. -/
theorem split_local_fits_u8 :
    ∀ c : Int, (asU8 (split c).1 : Int) = (split c).1 ∧ asU8 (split c).1 < 32 := by
  intro c
  have h32 : (0 : Int) ≤ 32 := by norm_num
  simp only [split, asU8, Int.fmod_eq_emod _ h32]
  have hconv : Int.emod (c % 32) 256 = (c % 32) % 256 := rfl
  rw [hconv]
  constructor <;> omega

/-- C6: when the region coordinate of a chunk coordinate is not in the
existence index, `get_chunk` returns `none` for every environment — in
particular no file access can influence the result. -/
theorem get_chunk_unknown_region_none (rs : Regionset) (xz : Coord)
    (h : ((split xz.x).2, (split xz.z).2) ∉ rs.regions) :
    ∀ env : Env, rs.get_chunk env xz = none := by
  intro env
  rw [Regionset.get_chunk_eq]
  simp [h]

/-- C7: on a path that does not exist, `World::new` and `Regionset::new`
both fail with `NotFound`. -/
theorem open_nonexistent_fails_notFound (env : Env) (p : String)
    (h : env.pathExists p = false) :
    World.new env p = .error .notFound ∧ Regionset.new env p = .error .notFound := by
  unfold World.new Regionset.new
  simp [h]

/-- C8: `World::get_regionset` is `unimplemented!()`: for every world and
every index it panics instead of returning the indexed Regionset or an
`IndexOutOfRange` error. -/
theorem get_regionset_unimplemented_panics :
    ∀ (w : World) (idx : Nat), w.get_regionset idx = .panicked "not implemented" := by
  intro w idx
  rfl

/-- C9: `Regionset::get_chunks` and `ChunkIter::next` are
`unimplemented!()`: they panic for every input instead of enumerating
`(x, z, mtime)` tuples (and `ChunkIter`'s item type is `Chunk`, not such a
tuple). -/
theorem get_chunks_unimplemented_panics :
    (∀ rs : Regionset, rs.get_chunks = .panicked "not implemented")
    ∧ ∀ it : ChunkIter, it.next = .panicked "not implemented" := by
  exact ⟨fun _ => rfl, fun _ => rfl⟩

/-- C2 counterexample: with a region file whose timestamp table reports a
slot as present while its payload fails to decode, `get_chunk` returns
`none` but `get_chunk_mtime` returns `some`, so the two lookup paths
disagree on presence. -/
theorem get_chunk_mtime_presence_counterexample :
    (rs0.get_chunk envBad ⟨4, 8⟩).isSome ≠ (rs0.get_chunk_mtime envBad ⟨4, 8⟩).isSome := by
  decide

/-- C2 (amended): whenever the external codec reports presence
consistently between `load_chunk` and `get_chunk_timestamp` on every
region file it parses, `get_chunk` and `get_chunk_mtime` agree on
presence at every coordinate: the core itself introduces no divergence,
since both paths share the split, the index check, the open and the
parse. -/
theorem get_chunk_presence_agrees_of_codec_consistent (env : Env) (rs : Regionset)
    (xz : Coord)
    (hcons : ∀ path rf, env.regionFile path = .valid rf →
      ∀ a b, (rf.loadChunk a b).isSome = (rf.timestamp a b).isSome) :
    (rs.get_chunk env xz).isSome = (rs.get_chunk_mtime env xz).isSome := by
  rw [Regionset.get_chunk_eq, Regionset.get_chunk_mtime_eq]
  by_cases hmem : ((split xz.x).2, (split xz.z).2) ∈ rs.regions
  · simp only [hmem, if_true]
    cases hrf : env.regionFile
        (rs.region_dir ++ "/" ++ regionFileName (split xz.x).2 (split xz.z).2) with
    | absent => rfl
    | invalid => rfl
    | valid rf =>
      have h := hcons _ rf hrf (asU8 (split xz.x).1) (asU8 (split xz.z).1)
      cases hl : rf.loadChunk (asU8 (split xz.x).1) (asU8 (split xz.z).1) with
      | none =>
        rw [hl] at h
        cases ht : rf.timestamp (asU8 (split xz.x).1) (asU8 (split xz.z).1) with
        | none => simp [hl, ht]
        | some t => rw [ht] at h; simp at h
      | some tag =>
        rw [hl] at h
        cases ht : rf.timestamp (asU8 (split xz.x).1) (asU8 (split xz.z).1) with
        | none => rw [ht] at h; simp at h
        | some t => simp [hl, ht]
  · simp [hmem]

/-- C2 witness: the amended theorem applied to a concrete consistent
environment and coordinate. -/
theorem get_chunk_presence_agrees_witness :
    (rs0.get_chunk envGood ⟨4, 8⟩).isSome = (rs0.get_chunk_mtime envGood ⟨4, 8⟩).isSome :=
  get_chunk_presence_agrees_of_codec_consistent envGood rs0 ⟨4, 8⟩ (by
    intro path rf h a b
    have h2 : FileOutcome.valid rfGood = FileOutcome.valid rf := h
    injection h2 with h3
    subst h3
    by_cases hab : a = 4 ∧ b = 8 <;> simp [rfGood, hab])

/-- C3: for a coordinate whose region is in the existence index, every
failure along the lookup path — the file failing to open, the region file
being malformed, or the target slot being reported empty/undecodable —
makes `get_chunk` (resp. `get_chunk_mtime`) return `none` rather than an
error. -/
theorem lookup_failures_return_none (env : Env) (rs : Regionset) (xz : Coord)
    (hmem : ((split xz.x).2, (split xz.z).2) ∈ rs.regions) :
    ((env.regionFile (rs.region_dir ++ "/" ++ regionFileName (split xz.x).2 (split xz.z).2)
          = .absent
      ∨ env.regionFile (rs.region_dir ++ "/" ++ regionFileName (split xz.x).2 (split xz.z).2)
          = .invalid) →
      rs.get_chunk env xz = none ∧ rs.get_chunk_mtime env xz = none)
    ∧ (∀ rf,
        env.regionFile (rs.region_dir ++ "/" ++ regionFileName (split xz.x).2 (split xz.z).2)
          = .valid rf →
        (rf.loadChunk (asU8 (split xz.x).1) (asU8 (split xz.z).1) = none →
          rs.get_chunk env xz = none)
        ∧ (rf.timestamp (asU8 (split xz.x).1) (asU8 (split xz.z).1) = none →
          rs.get_chunk_mtime env xz = none)) := by
  refine ⟨?_, ?_⟩
  · intro h
    refine ⟨?_, ?_⟩
    · rw [Regionset.get_chunk_eq]
      rcases h with h | h <;> simp [hmem, h]
    · rw [Regionset.get_chunk_mtime_eq]
      rcases h with h | h <;> simp [hmem, h]
  · intro rf hrf
    refine ⟨?_, ?_⟩
    · intro hl
      rw [Regionset.get_chunk_eq]
      simp [hmem, hrf, hl]
    · intro ht
      rw [Regionset.get_chunk_mtime_eq]
      simp [hmem, hrf, ht]

/-- C3 witness: the theorem applied to the concrete environment in which
opening any file fails, at region `(0, 0)` of the concrete Regionset. -/
theorem lookup_failures_return_none_witness :
    ((envAbsent.regionFile ("d" ++ "/" ++ regionFileName (split (4:Int)).2 (split (8:Int)).2)
          = .absent
      ∨ envAbsent.regionFile ("d" ++ "/" ++ regionFileName (split (4:Int)).2 (split (8:Int)).2)
          = .invalid) →
      rs0.get_chunk envAbsent ⟨4, 8⟩ = none ∧ rs0.get_chunk_mtime envAbsent ⟨4, 8⟩ = none)
    ∧ (∀ rf,
        envAbsent.regionFile ("d" ++ "/" ++ regionFileName (split (4:Int)).2 (split (8:Int)).2)
          = .valid rf →
        (rf.loadChunk (asU8 (split (4:Int)).1) (asU8 (split (8:Int)).1) = none →
          rs0.get_chunk envAbsent ⟨4, 8⟩ = none)
        ∧ (rf.timestamp (asU8 (split (4:Int)).1) (asU8 (split (8:Int)).1) = none →
          rs0.get_chunk_mtime envAbsent ⟨4, 8⟩ = none)) :=
  lookup_failures_return_none envAbsent rs0 ⟨4, 8⟩ (by decide)

/-- Characterization of the filename test on its component list. -/
theorem parseRegionComponents_isSome (l : List String) :
    (parseRegionComponents l).isSome = true ↔
      ∃ c1 c2 x z, l = ["r", c1, c2, "mca"]
        ∧ from_str_radix_10 c1 = some x ∧ from_str_radix_10 c2 = some z := by
  cases l with
  | nil => simp [parseRegionComponents]
  | cons c0 t0 =>
    cases t0 with
    | nil => simp [parseRegionComponents]
    | cons c1 t1 =>
      cases t1 with
      | nil => simp [parseRegionComponents]
      | cons c2 t2 =>
        cases t2 with
        | nil => simp [parseRegionComponents]
        | cons c3 t3 =>
          cases t3 with
          | cons c4 t4 => simp [parseRegionComponents]
          | nil =>
            by_cases h03 : c0 = "r" ∧ c3 = "mca"
            · obtain ⟨h0, h3⟩ := h03
              subst h0; subst h3
              simp only [parseRegionComponents]
              simp only [and_self, if_true]
              cases hx : from_str_radix_10 c1 with
              | none =>
                cases hz : from_str_radix_10 c2 with
                | none =>
                  refine iff_of_false (by simp) ?_
                  rintro ⟨d1, d2, x, z, heq, hx2, -⟩
                  injection heq with e0 rest
                  injection rest with e1 rest
                  subst e1
                  rw [hx] at hx2
                  exact Option.noConfusion hx2
                | some z =>
                  refine iff_of_false (by simp) ?_
                  rintro ⟨d1, d2, x, z, heq, hx2, -⟩
                  injection heq with e0 rest
                  injection rest with e1 rest
                  subst e1
                  rw [hx] at hx2
                  exact Option.noConfusion hx2
              | some x =>
                cases hz : from_str_radix_10 c2 with
                | none =>
                  refine iff_of_false (by simp) ?_
                  rintro ⟨d1, d2, x2, z2, heq, -, hz2⟩
                  injection heq with e0 rest
                  injection rest with e1 rest
                  injection rest with e2 rest
                  subst e2
                  rw [hz] at hz2
                  exact Option.noConfusion hz2
                | some z =>
                  exact iff_of_true (by simp) ⟨c1, c2, x, z, rfl, hx, hz⟩
            · simp only [parseRegionComponents, if_neg h03, Option.isSome_none,
                Bool.false_eq_true, false_iff]
              rintro ⟨d1, d2, x, z, heq, -, -⟩
              apply h03
              injection heq with e0 rest
              injection rest with e1 rest
              injection rest with e2 rest
              injection rest with e3 _
              exact ⟨e0, e3⟩

/-- The number of recorded regions equals the number of matching
filenames. -/
theorem length_filterMap_parse (files : List String) :
    (files.filterMap parseRegionName).length
      = (files.filter fun f => (parseRegionName f).isSome).length := by
  induction files with
  | nil => rfl
  | cons f fs ih =>
    cases h : parseRegionName f <;>
      simp [List.filterMap_cons, List.filter_cons, h, ih]

/-- C4: over a readable directory, `Regionset::new` succeeds and records
exactly the entries whose filename splits into four dot-separated
components `r . <int> . <int> . mca` (components 1 and 2 parsing as signed
base-10 `i64`); all other entries are skipped without error, so the index
has exactly as many entries as there are matching filenames. -/
theorem regionset_new_existence_index (env : Env) (p : String) (files : List String)
    (hex : env.pathExists p = true) (hrd : env.readDir p = .ok files) :
    Regionset.new env p = .ok ⟨p, files.filterMap parseRegionName⟩
    ∧ (files.filterMap parseRegionName).length
        = (files.filter fun f => (parseRegionName f).isSome).length
    ∧ ∀ f, (parseRegionName f).isSome = true ↔
        ∃ c1 c2 x z, f.splitOn "." = ["r", c1, c2, "mca"]
          ∧ from_str_radix_10 c1 = some x ∧ from_str_radix_10 c2 = some z := by
  refine ⟨?_, length_filterMap_parse files, fun f => ?_⟩
  · unfold Regionset.new
    simp [hex, hrd]
  · exact parseRegionComponents_isSome (f.splitOn ".")

/-- C4 witness: the theorem applied to an environment whose directory
holds two matching region files and one stray entry. -/
theorem regionset_new_existence_index_witness :
    (envMixed.pathExists "d" = true) ∧ (envMixed.readDir "d"
        = .ok ["r.0.0.mca", "r.-1.2.mca", "junk.txt"]) ∧
    (Regionset.new envMixed "d"
        = .ok ⟨"d", ["r.0.0.mca", "r.-1.2.mca", "junk.txt"].filterMap parseRegionName⟩
    ∧ (["r.0.0.mca", "r.-1.2.mca", "junk.txt"].filterMap parseRegionName).length
        = (["r.0.0.mca", "r.-1.2.mca", "junk.txt"].filter
            fun f => (parseRegionName f).isSome).length
    ∧ ∀ f, (parseRegionName f).isSome = true ↔
        ∃ c1 c2 x z, f.splitOn "." = ["r", c1, c2, "mca"]
          ∧ from_str_radix_10 c1 = some x ∧ from_str_radix_10 c2 = some z) :=
  ⟨rfl, rfl, regionset_new_existence_index envMixed "d"
    ["r.0.0.mca", "r.-1.2.mca", "junk.txt"] rfl rfl⟩

/-- Bind on `Except` of a success is application. -/
theorem exceptOkBind {ε α β : Type} (a : α) (f : α → Except ε β) :
    (Except.ok a : Except ε α) >>= f = f a := rfl

/-- Bind on `Except` of a failure is that failure. -/
theorem exceptErrorBind {ε α β : Type} (e : ε) (f : α → Except ε β) :
    (Except.error e : Except ε α) >>= f = .error e := rfl

/-- `dimQualifies` unpacked. -/
theorem dimQualifies_eq_true (env : Env) (path : String) :
    dimQualifies env path = true ↔
      env.isDir path = true
      ∧ ∃ files, env.readDir path = .ok files ∧ files.any extensionIsMca = true := by
  unfold dimQualifies
  cases hrd : env.readDir path with
  | error u => simp [hrd]
  | ok files => simp [hrd]

/-- Scan step: a non-directory entry is skipped. -/
theorem scanRegionsets_cons_notdir (env : Env) (p m : String) (rest : List String)
    (hdir : env.isDir (p ++ "/" ++ m) = false) :
    scanRegionsets env p (m :: rest) = scanRegionsets env p rest := by
  simp only [scanRegionsets]
  rw [hdir]
  exact if_neg (by decide)

/-- Scan step: a subdirectory whose listing fails aborts with `IoError`. -/
theorem scanRegionsets_cons_readErr (env : Env) (p m : String) (rest : List String)
    (u : Unit) (hdir : env.isDir (p ++ "/" ++ m) = true)
    (hrd : env.readDir (p ++ "/" ++ m) = .error u) :
    scanRegionsets env p (m :: rest) = .error .ioError := by
  simp only [scanRegionsets]
  rw [hdir, hrd]
  exact (if_pos rfl).trans rfl

/-- Scan step: a subdirectory with no `mca` file is skipped. -/
theorem scanRegionsets_cons_noMca (env : Env) (p m : String) (rest : List String)
    (files : List String) (hdir : env.isDir (p ++ "/" ++ m) = true)
    (hrd : env.readDir (p ++ "/" ++ m) = .ok files)
    (hany : files.any extensionIsMca = false) :
    scanRegionsets env p (m :: rest) = scanRegionsets env p rest := by
  simp only [scanRegionsets]
  rw [hdir, hrd]
  exact (if_pos rfl).trans (if_neg (by simp [hany]))

/-- Scan step: a qualifying subdirectory constructs a Regionset and
continues. -/
theorem scanRegionsets_cons_mca (env : Env) (p m : String) (rest : List String)
    (files : List String) (hdir : env.isDir (p ++ "/" ++ m) = true)
    (hrd : env.readDir (p ++ "/" ++ m) = .ok files)
    (hany : files.any extensionIsMca = true) :
    scanRegionsets env p (m :: rest) =
      (match Regionset.new env (p ++ "/" ++ m) with
      | .error e => .error e
      | .ok rs =>
        match scanRegionsets env p rest with
        | .error e => .error e
        | .ok l => .ok (rs :: l)) := by
  simp only [scanRegionsets]
  rw [hdir, hrd]
  exact (if_pos rfl).trans (if_pos hany)

/-- A successful directory scan returns exactly the Regionsets built, in
order, from the qualifying entries. -/
theorem scanRegionsets_ok (env : Env) (p : String) :
    ∀ (names : List String) (l : List Regionset),
      scanRegionsets env p names = .ok l →
      (names.filter fun n => dimQualifies env (p ++ "/" ++ n)).mapM
          (fun n => Regionset.new env (p ++ "/" ++ n)) = .ok l
       ∧ l.length = (names.filter fun n => dimQualifies env (p ++ "/" ++ n)).length := by
  intro names
  induction names with
  | nil =>
    intro l h
    simp only [scanRegionsets] at h
    cases h
    exact ⟨rfl, rfl⟩
  | cons m rest ih =>
    intro l h
    rw [List.filter_cons]
    cases hdir : env.isDir (p ++ "/" ++ m) with
    | false =>
      rw [scanRegionsets_cons_notdir env p m rest hdir] at h
      have hq : dimQualifies env (p ++ "/" ++ m) = false := by
        simp [dimQualifies, hdir]
      rw [hq]
      simpa using ih l h
    | true =>
      cases hrd : env.readDir (p ++ "/" ++ m) with
      | error u =>
        rw [scanRegionsets_cons_readErr env p m rest u hdir hrd] at h
        exact absurd h (by simp)
      | ok files =>
        cases hany : files.any extensionIsMca with
        | false =>
          rw [scanRegionsets_cons_noMca env p m rest files hdir hrd hany] at h
          have hq : dimQualifies env (p ++ "/" ++ m) = false := by
            simp [dimQualifies, hdir, hrd, hany]
          rw [hq]
          simpa using ih l h
        | true =>
          rw [scanRegionsets_cons_mca env p m rest files hdir hrd hany] at h
          have hq : dimQualifies env (p ++ "/" ++ m) = true := by
            simp [dimQualifies, hdir, hrd, hany]
          rw [hq]
          cases hnew : Regionset.new env (p ++ "/" ++ m) with
          | error e =>
            rw [hnew] at h
            exact absurd h (by simp)
          | ok rs =>
            rw [hnew] at h
            cases hsc : scanRegionsets env p rest with
            | error e =>
              rw [hsc] at h
              exact absurd h (by simp)
            | ok l2 =>
              rw [hsc] at h
              cases h
              obtain ⟨ihm, ihl⟩ := ih l2 hsc
              simp only [if_true, List.mapM_cons, hnew, exceptOkBind, ihm]
              refine ⟨rfl, ?_⟩
              simp [ihl]


/-- If any qualifying entry's Regionset construction fails, the whole scan
fails. -/
theorem scanRegionsets_err (env : Env) (p : String) (names : List String) :
    ∀ (n : String) (e : OverviewerError),
      n ∈ names → dimQualifies env (p ++ "/" ++ n) = true →
      Regionset.new env (p ++ "/" ++ n) = .error e →
      ∃ e2, scanRegionsets env p names = .error e2 := by
  induction names with
  | nil =>
    intro n e h
    exact absurd h (List.not_mem_nil n)
  | cons m rest ih =>
    intro n e hmem hq hnew
    rcases List.mem_cons.mp hmem with heq | hmem2
    · subst heq
      rw [dimQualifies_eq_true] at hq
      obtain ⟨hdir, files, hrd, hany⟩ := hq
      refine ⟨e, ?_⟩
      rw [scanRegionsets_cons_mca env p n rest files hdir hrd hany, hnew]
    · obtain ⟨e2, hscan⟩ := ih n e hmem2 hq hnew
      cases hdir : env.isDir (p ++ "/" ++ m) with
      | false =>
        rw [scanRegionsets_cons_notdir env p m rest hdir]
        exact ⟨e2, hscan⟩
      | true =>
        cases hrd : env.readDir (p ++ "/" ++ m) with
        | error u =>
          exact ⟨.ioError, scanRegionsets_cons_readErr env p m rest u hdir hrd⟩
        | ok files =>
          cases hany : files.any extensionIsMca with
          | false =>
            rw [scanRegionsets_cons_noMca env p m rest files hdir hrd hany]
            exact ⟨e2, hscan⟩
          | true =>
            rw [scanRegionsets_cons_mca env p m rest files hdir hrd hany]
            cases hnew2 : Regionset.new env (p ++ "/" ++ m) with
            | error e3 => exact ⟨e3, rfl⟩
            | ok rs => rw [hscan]; exact ⟨e2, rfl⟩

/-- `World::new` on a missing path. -/
theorem worldNew_notFound (env : Env) (p : String)
    (hex : env.pathExists p = false) :
    World.new env p = .error .notFound := by
  unfold World.new
  rw [hex]
  exact if_neg (by decide)

/-- `World::new` when the metadata chain fails. -/
theorem worldNew_levelDatErr (env : Env) (p : String) (e : OverviewerError)
    (hex : env.pathExists p = true)
    (hld : env.levelDat (p ++ "/level.dat") = .error e) :
    World.new env p = .error e := by
  unfold World.new
  rw [hex, hld]
  exact (if_pos rfl).trans rfl

/-- `World::new` with metadata and directory listing in hand reduces to
the directory scan. -/
theorem worldNew_scan (env : Env) (p : String) (tagv : Tag) (entries : List String)
    (hex : env.pathExists p = true)
    (hld : env.levelDat (p ++ "/level.dat") = .ok tagv)
    (hrd : env.readDir p = .ok entries) :
    World.new env p =
      (match scanRegionsets env p entries with
      | .error e => .error e
      | .ok regionsets => .ok ⟨p, regionsets, tagv⟩) := by
  unfold World.new
  rw [hex, hld, hrd]
  exact (if_pos rfl).trans rfl

/-- C5: when the world directory is readable, a successful `World::new`
holds exactly one Regionset — built by `Regionset::new`, in scan order —
for each directory entry that is a subdirectory whose listing contains at
least one filename with the `mca` extension (non-directories and
subdirectories without such a file are skipped); and if constructing the
Regionset of any qualifying subdirectory fails, `World::new` fails. -/
theorem world_new_dimension_scan (env : Env) (p : String) (entries : List String)
    (hrd : env.readDir p = .ok entries) :
    (∀ w, World.new env p = .ok w →
      (entries.filter fun n => dimQualifies env (p ++ "/" ++ n)).mapM
          (fun n => Regionset.new env (p ++ "/" ++ n)) = .ok w.regionsets
      ∧ w.regionsets.length
          = (entries.filter fun n => dimQualifies env (p ++ "/" ++ n)).length)
    ∧ (∀ n e, n ∈ entries → dimQualifies env (p ++ "/" ++ n) = true →
        Regionset.new env (p ++ "/" ++ n) = .error e →
        ∃ e2, World.new env p = .error e2) := by
  constructor
  · intro w hw
    cases hex : env.pathExists p with
    | false =>
      rw [worldNew_notFound env p hex] at hw
      exact absurd hw (by simp)
    | true =>
      cases hld : env.levelDat (p ++ "/level.dat") with
      | error e =>
        rw [worldNew_levelDatErr env p e hex hld] at hw
        exact absurd hw (by simp)
      | ok tagv =>
        have h5 := worldNew_scan env p tagv entries hex hld hrd
        cases hsc : scanRegionsets env p entries with
        | error e =>
          rw [hsc] at h5
          rw [h5] at hw
          exact absurd hw (by simp)
        | ok rss =>
          rw [hsc] at h5
          have h6 : Except.ok (World.mk p rss tagv) = Except.ok w :=
            h5.symm.trans hw
          injection h6 with h7
          subst h7
          exact scanRegionsets_ok env p entries rss hsc
  · intro n e hmem hq hnew
    obtain ⟨e2, hscan⟩ := scanRegionsets_err env p entries n e hmem hq hnew
    cases hex : env.pathExists p with
    | false => exact ⟨.notFound, worldNew_notFound env p hex⟩
    | true =>
      cases hld : env.levelDat (p ++ "/level.dat") with
      | error e3 => exact ⟨e3, worldNew_levelDatErr env p e3 hex hld⟩
      | ok tagv =>
        have h5 := worldNew_scan env p tagv entries hex hld hrd
        rw [hscan] at h5
        exact ⟨e2, h5⟩

/-- C5 witness: the theorem applied to the concrete world environment
with one qualifying dimension subdirectory of six region files and one
stray file. -/
theorem world_new_dimension_scan_witness :
    (∀ w, World.new envWorld "w" = .ok w →
      ((["region", "file.txt"].filter
          fun n => dimQualifies envWorld ("w" ++ "/" ++ n)).mapM
          (fun n => Regionset.new envWorld ("w" ++ "/" ++ n)) = .ok w.regionsets
      ∧ w.regionsets.length
          = (["region", "file.txt"].filter
              fun n => dimQualifies envWorld ("w" ++ "/" ++ n)).length))
    ∧ (∀ n e, n ∈ ["region", "file.txt"] →
        dimQualifies envWorld ("w" ++ "/" ++ n) = true →
        Regionset.new envWorld ("w" ++ "/" ++ n) = .error e →
        ∃ e2, World.new envWorld "w" = .error e2) :=
  world_new_dimension_scan envWorld "w" ["region", "file.txt"] rfl

/-- C6 witness: the theorem applied to a Regionset with an empty
existence index, at one concrete environment. -/
theorem get_chunk_unknown_region_none_witness :
    Regionset.get_chunk envGood ⟨"d", []⟩ ⟨0, 0⟩ = none :=
  get_chunk_unknown_region_none ⟨"d", []⟩ ⟨0, 0⟩ (by decide) envGood

/-- C7 witness: the theorem applied to the environment in which no path
exists. -/
theorem open_nonexistent_fails_notFound_witness :
    World.new envNothing "x" = .error .notFound
    ∧ Regionset.new envNothing "x" = .error .notFound :=
  open_nonexistent_fails_notFound envNothing "x" rfl

end Overviewer
